import Mathlib

/-!
Shallow embedding of the unified-rag retrieval coordinator (Rust sources:
`src/models/mod.rs`, `src/cache/redis_cache.rs`, `src/search/qdrant_search.rs`,
`src/service.rs`).

Modelling conventions, stated once here:
* `f32` values (scores, thresholds, embedding components) are opaque tokens:
  the program only moves and stores them, it never computes with them, so we
  represent them by `Int`.
* `Uuid` and `chrono::DateTime<Utc>` round-trip through serde exactly; we model
  ids as `String`/`Nat` and timestamps as `Nat` instants (the RFC3339 rendering
  is injective on instants).
* serde_json serialization is modelled as an injective constructor `Val.memV`
  (resp. `Val.memListV`, `Val.metaV`) with a partial inverse; a value of a
  different shape fails to deserialize, exactly like a JSON parse error.
* Redis keys built by `make_thought_key`, `make_metadata_key`, `make_tag_key`,
  `make_chain_key`, `make_cache_key` (`um:cache:<md5 of the Debug-formatted
  request>`) are pairwise distinct strings for all instance prefixes, ids,
  tags and chain ids (the fixed middle segments `:Thoughts:`, `:thought_meta:`,
  `:tags:`, `:chains:`, `um:cache:` differ pairwise at their first characters
  and the scheme is injective in the variable parts), so we model the key
  space as the inductive `RKey`; the query hash md5 of the full Debug-formatted
  `SearchRequest` is modelled as the request itself (hash collisions excluded).
* Async I/O against the two stores is modelled by explicit state passing
  through a connection interface `Conn`; connection-checkout (`pool.get()`)
  failure aborts an operation before any store call and is not modelled.
-/

namespace UnifiedRag

/-- `f32`, used only as an opaque payload (never computed with). -/
abbrev F32 := Int

/-- `MemoryMetadata` from `src/models/mod.rs`. -/
structure MemoryMetadata where
  category : Option String
  tags : List String
  importance : Int
  chain_id : Option String
  parent_id : Option String
  framework : Option String
  source : String
deriving DecidableEq

/-- `Memory` from `src/models/mod.rs` (id modelled as `String`, timestamps as
`Nat` instants). -/
structure Memory where
  id : String
  instance_id : String
  content : String
  embedding : Option (List F32)
  metadata : MemoryMetadata
  created_at : Nat
  updated_at : Nat
  access_count : Nat
  relevance_score : F32
deriving DecidableEq

/-- `SearchRequest` from `src/models/mod.rs`. -/
structure SearchRequest where
  query : String
  limit : Option Nat
  threshold : Option F32
  category_filter : Option String
  tags_filter : Option (List String)
  instance_filter : Option (List String)
  hybrid_mode : Bool
deriving DecidableEq

/-- `SearchResult` from `src/models/mod.rs` (`search_id : Uuid` modelled as
`Nat`). -/
structure SearchResult where
  memories : List Memory
  search_id : Nat
  query_embedding : Option (List F32)
  cache_hits : Nat
  total_results : Nat
  search_time_ms : Nat
deriving DecidableEq

/-- `UnifiedRagError` from `src/error.rs`, collapsed to the variants the
modelled operations can produce (the payloads of the Rust variants are
abstracted to small codes). -/
inductive Err where
  | redis (code : Nat)
  | wrongType
  | serde
  | qdrant (code : Nat)
  | openai (code : Nat)
deriving DecidableEq

/-- The access-metadata JSON object written by `RedisCache::set`
(`src/cache/redis_cache.rs:100-109`). -/
structure MetaRecord where
  thought_id : String
  instanceTag : String
  importance : Int
  category : Option String
  tags : List String
  created_at : Nat
  last_accessed : Nat
  access_count : Nat
deriving DecidableEq

/-- Serialized values stored in Redis. `memV`/`memListV`/`metaV` model the
serde_json strings for a `Memory`, a `Vec<Memory>` and the metadata object;
`intV`/`strV` model plain scalar strings. serde serialization is injective,
so each shape is its own constructor and deserialization is the partial
inverse below. -/
inductive Val where
  | memV (m : Memory)
  | memListV (ms : List Memory)
  | metaV (r : MetaRecord)
  | strV (s : String)
  | intV (n : Int)
deriving DecidableEq

/-- `serde_json::from_str::<Memory>`: succeeds exactly on a serialized
`Memory`. -/
def decodeMemory : Val → Except Err Memory
  | Val.memV m => Except.ok m
  | _ => Except.error Err.serde

/-- `serde_json::from_str::<Vec<Memory>>`. -/
def decodeMemList : Val → Except Err (List Memory)
  | Val.memListV ms => Except.ok ms
  | _ => Except.error Err.serde

/-- The Redis key space used by `RedisCache` (`make_*` helpers,
`src/cache/redis_cache.rs:24-51`). Each constructor stands for one key
format; the formats are pairwise non-overlapping strings (see header note),
so the inductive is a faithful model of the string key space.
`qcache` is `um:cache:<md5 of the Debug-formatted request>`, keyed here by
the request itself. -/
inductive RKey where
  | thought (pfx id : String)
  | meta (pfx id : String)
  | tag (pfx t : String)
  | chain (pfx c : String)
  | qcache (req : SearchRequest)
deriving DecidableEq

/-- A Redis value with its runtime type: string (with optional expiry
instant), hash, set, or list. -/
inductive RVal where
  | str (v : Val) (expiry : Option Nat)
  | hash (fields : List (String × Val))
  | rset (members : List String)
  | rlist (items : List String)
deriving DecidableEq

/-- Honest model of the Redis keyspace plus a scan counter used to observe
whether a full key scan was performed. -/
structure RedisState where
  kv : List (RKey × RVal)
  scans : Nat
deriving DecidableEq

/-- First-match association-list lookup. -/
def kvLookup : List (RKey × RVal) → RKey → Option RVal
  | [], _ => none
  | (k', v) :: rest, k => if k = k' then some v else kvLookup rest k

/-- `DEL`: remove the entry for a key. -/
def kvDrop : List (RKey × RVal) → RKey → List (RKey × RVal)
  | [], _ => []
  | (k', v) :: rest, k => if k' = k then kvDrop rest k else (k', v) :: kvDrop rest k

/-- Overwrite a key (any previous entry for it removed). -/
def kvPut (l : List (RKey × RVal)) (k : RKey) (v : RVal) : List (RKey × RVal) :=
  (k, v) :: kvDrop l k

/-- Whether an entry with the given optional expiry instant is live at `now`
(`SETEX`-style TTL: live strictly before the expiry instant). -/
def liveExp (now : Nat) : Option Nat → Bool
  | none => true
  | some e => decide (now < e)

/-- Lookup that treats an expired string entry as absent, as Redis does. -/
def liveLookup (now : Nat) (s : RedisState) (k : RKey) : Option RVal :=
  match kvLookup s.kv k with
  | some (RVal.str v exp) => if liveExp now exp then some (RVal.str v exp) else none
  | other => other

/-- `SCAN MATCH <pfx>:Thoughts:* COUNT 100`, with the cursor loop collapsed
to the full enumeration Redis guarantees, and the caller-side
`strip` of the `<pfx>:Thoughts:` key front already applied (the ids are
returned directly). Only the scan counter distinguishes it from a pure read. -/
def scanThoughtIds (now : Nat) (l : List (RKey × RVal)) (p : String) : List String :=
  l.filterMap (fun e =>
    match e with
    | (RKey.thought q i, RVal.str _ exp) =>
      if q = p ∧ liveExp now exp then some i else none
    | (RKey.thought q i, _) => if q = p then some i else none
    | _ => none)

/-- Field lookup in a Redis hash. -/
def hGet : List (String × Val) → String → Option Val
  | [], _ => none
  | (f', v) :: rest, f => if f = f' then some v else hGet rest f

/-- Field overwrite in a Redis hash. -/
def hPut (h : List (String × Val)) (f : String) (v : Val) : List (String × Val) :=
  (f, v) :: h.filter (fun e => decide (e.1 ≠ f))

/-- `LREM key count member`: count 0 removes every occurrence, positive count
removes the first `count` occurrences from the head, negative from the tail. -/
def removeFirstN (m : String) : Nat → List String → List String
  | _, [] => []
  | 0, l => l
  | Nat.succ n, x :: rest =>
    if x = m then removeFirstN m n rest else x :: removeFirstN m (Nat.succ n) rest

/-- List result of `LREM` with the given count. -/
def lremList (cnt : Int) (m : String) (l : List String) : List String :=
  if cnt = 0 then l.filter (fun x => decide (x ≠ m))
  else if 0 < cnt then removeFirstN m cnt.toNat l
  else ((removeFirstN m (-cnt).toNat l.reverse)).reverse

/-- The Redis connection interface used by `RedisCache` (the subset of
`redis::AsyncCommands` the source calls), as a state machine over an abstract
store state `σ`: each primitive returns its result (or a Redis error) and the
successor state. `scan` is the collapsed `SCAN MATCH <pfx>:Thoughts:*` cursor
loop returning the stripped thought ids. -/
structure Conn (σ : Type) where
  kvGet : RKey → σ → Except Err (Option Val) × σ
  kvSet : RKey → Val → σ → Except Err Unit × σ
  kvSetEx : RKey → Val → Nat → σ → Except Err Unit × σ
  hincr : RKey → String → Int → σ → Except Err Int × σ
  hset : RKey → String → Val → σ → Except Err Unit × σ
  sadd : RKey → String → σ → Except Err Unit × σ
  srem : RKey → String → σ → Except Err Unit × σ
  rpush : RKey → String → σ → Except Err Unit × σ
  lrem : RKey → Int → String → σ → Except Err Unit × σ
  del : RKey → σ → Except Err Unit × σ
  scan : String → σ → Except Err (List String) × σ

/-- Rust's `?` after a store call: an error propagates immediately (with the
state at failure), a success continues with the value and successor state. -/
def tryThen {σ α β : Type} (r : Except Err α × σ) (k : α → σ → Except Err β × σ) :
    Except Err β × σ :=
  match r with
  | (Except.error e, s) => (Except.error e, s)
  | (Except.ok a, s) => k a s

namespace RedisCache

variable {σ : Type}

/-- `RedisCache::get` (`src/cache/redis_cache.rs:56-84`): read and
deserialize the primary record; on a hit, bump the metadata access counter
and last-accessed stamp with `let _ = ...` (results discarded — best-effort);
the last-accessed value written is the RFC3339 rendering of the clock,
modelled as the instant itself. -/
def get (c : Conn σ) (p id : String) (now : Nat) (s : σ) :
    Except Err (Option Memory) × σ :=
  match c.kvGet (RKey.thought p id) s with
  | (Except.error e, s₁) => (Except.error e, s₁)
  | (Except.ok none, s₁) => (Except.ok none, s₁)
  | (Except.ok (some v), s₁) =>
    match decodeMemory v with
    | Except.error e => (Except.error e, s₁)
    | Except.ok m =>
      let r₂ := c.hincr (RKey.meta p id) "access_count" 1 s₁
      let r₃ := c.hset (RKey.meta p id) "last_accessed" (Val.intV (Int.ofNat now)) r₂.2
      (Except.ok (some m), r₃.2)

/-- The metadata object `RedisCache::set` serializes
(`src/cache/redis_cache.rs:100-109`): fresh record, `access_count` 0,
`last_accessed` initialized to `created_at`. -/
def mkMeta (p id : String) (m : Memory) : MetaRecord :=
  { thought_id := id
    instanceTag := p
    importance := m.metadata.importance
    category := m.metadata.category
    tags := m.metadata.tags
    created_at := m.created_at
    last_accessed := m.created_at
    access_count := 0 }

/-- The `for tag in &memory.metadata.tags { conn.sadd(...)? }` loop of
`RedisCache::set`: every `SADD` error propagates. -/
def saddAll (c : Conn σ) (p id : String) : List String → σ → Except Err Unit × σ
  | [], s => (Except.ok (), s)
  | t :: ts, s =>
    match c.sadd (RKey.tag p t) id s with
    | (Except.error e, s₁) => (Except.error e, s₁)
    | (Except.ok _, s₁) => saddAll c p id ts s₁

/-- The chain-append step of `set` (`src/cache/redis_cache.rs:118-122`):
`RPUSH` to the chain list when a chain id is present, `?` on its result. -/
def chainStep (c : Conn σ) (p id : String) (chain : Option String) (s₃ : σ) :
    Except Err Unit × σ :=
  match chain with
  | none => (Except.ok (), s₃)
  | some ch => tryThen (c.rpush (RKey.chain p ch) id s₃) (fun _ s₄ => (Except.ok (), s₄))

/-- `RedisCache::set` (`src/cache/redis_cache.rs:86-125`): primary write
(`SETEX` when a TTL is given, plain `SET` otherwise), then metadata write,
tag-set updates and chain append — each followed by `?`, so any failure
propagates. -/
def set (c : Conn σ) (p id : String) (m : Memory) (ttl : Option Nat) (s : σ) :
    Except Err Unit × σ :=
  tryThen (match ttl with
    | some t => c.kvSetEx (RKey.thought p id) (Val.memV m) t s
    | none => c.kvSet (RKey.thought p id) (Val.memV m) s) (fun _ s₁ =>
  tryThen (c.kvSet (RKey.meta p id) (Val.metaV (mkMeta p id m)) s₁) (fun _ s₂ =>
  tryThen (saddAll c p id m.metadata.tags s₂) (fun _ s₃ =>
  chainStep c p id m.metadata.chain_id s₃)))

/-- The three per-candidate filters of `RedisCache::search_cached`
(`src/cache/redis_cache.rs:162-179`): category exact match, tags match-any,
instance allow-list. -/
def passesFilters (req : SearchRequest) (m : Memory) : Bool :=
  (match req.category_filter with
   | some c => decide (m.metadata.category = some c)
   | none => true) &&
  (match req.tags_filter with
   | some ts => ts.any (fun t => m.metadata.tags.contains t)
   | none => true) &&
  (match req.instance_filter with
   | some l => l.contains m.instance_id
   | none => true)

/-- The per-key body of the `search_cached` scan loop
(`src/cache/redis_cache.rs:157-194`): fetch via `self.get` (`?` propagates),
skip a missing record, apply the filters, push a match, and break once
`results.len() >= request.limit.unwrap_or(20)` — checked only after the
push. -/
def scanLoop (c : Conn σ) (p : String) (req : SearchRequest) (now : Nat) :
    List String → List Memory → σ → Except Err (List Memory) × σ
  | [], acc, s => (Except.ok acc, s)
  | i :: rest, acc, s =>
    match get c p i now s with
    | (Except.error e, s₁) => (Except.error e, s₁)
    | (Except.ok none, s₁) => scanLoop c p req now rest acc s₁
    | (Except.ok (some m), s₁) =>
      if passesFilters req m then
        let acc₁ := acc ++ [m]
        if req.limit.getD 20 ≤ acc₁.length then (Except.ok acc₁, s₁)
        else scanLoop c p req now rest acc₁ s₁
      else scanLoop c p req now rest acc s₁

/-- The scan phase of `search_cached`: `SCAN` (`?` propagates), the filter
loop, and — only when the results are non-empty — the best-effort
(`let _ =`) 1-hour `SETEX` of the result list under the query hash. -/
def searchScan (c : Conn σ) (p : String) (req : SearchRequest) (now : Nat)
    (s : σ) : Except Err (List Memory) × σ :=
  tryThen (c.scan p s) (fun ids s₁ =>
  tryThen (scanLoop c p req now ids [] s₁) (fun results s₂ =>
    if results.isEmpty then (Except.ok results, s₂)
    else
      (Except.ok results, (c.kvSetEx (RKey.qcache req) (Val.memListV results) 3600 s₂).2)))

/-- `RedisCache::search_cached` (`src/cache/redis_cache.rs:127-206`): the
query-hash lookup (`if let Ok(Some(cached)) = ...` — a read error or a parse
failure silently falls through to the scan phase), returning a parsed cached
result verbatim. -/
def search_cached (c : Conn σ) (p : String) (req : SearchRequest) (now : Nat)
    (s : σ) : Except Err (List Memory) × σ :=
  match c.kvGet (RKey.qcache req) s with
  | (Except.ok (some v), s₁) =>
    match decodeMemList v with
    | Except.ok l => (Except.ok l, s₁)
    | Except.error _ => searchScan c p req now s₁
  | (Except.ok none, s₁) => searchScan c p req now s₁
  | (Except.error _, s₁) => searchScan c p req now s₁

/-- The `srem` loop of `RedisCache::invalidate`: every `SREM` error
propagates. -/
def sremAll (c : Conn σ) (p id : String) : List String → σ → Except Err Unit × σ
  | [], s => (Except.ok (), s)
  | t :: ts, s =>
    match c.srem (RKey.tag p t) id s with
    | (Except.error e, s₁) => (Except.error e, s₁)
    | (Except.ok _, s₁) => sremAll c p id ts s₁

/-- The final two `DEL`s of `RedisCache::invalidate`
(`src/cache/redis_cache.rs:227-231`): delete the thought and its metadata,
each with `?`. -/
def delPhase (c : Conn σ) (p id : String) (s : σ) : Except Err Unit × σ :=
  match c.del (RKey.thought p id) s with
  | (Except.error e, s₁) => (Except.error e, s₁)
  | (Except.ok _, s₁) =>
    match c.del (RKey.meta p id) s₁ with
    | (Except.error e, s₂) => (Except.error e, s₂)
    | (Except.ok _, s₂) => (Except.ok (), s₂)

/-- `RedisCache::invalidate` (`src/cache/redis_cache.rs:208-234`): read the
record via `self.get` (`?` propagates); when it exists, remove the id from
each tag set and from the chain list (each `?` propagates); when it does not,
skip cleanup; finally delete the thought and metadata keys. -/
def invalidate (c : Conn σ) (p id : String) (now : Nat) (s : σ) :
    Except Err Unit × σ :=
  match get c p id now s with
  | (Except.error e, s₁) => (Except.error e, s₁)
  | (Except.ok none, s₁) => delPhase c p id s₁
  | (Except.ok (some m), s₁) =>
    match sremAll c p id m.metadata.tags s₁ with
    | (Except.error e, s₂) => (Except.error e, s₂)
    | (Except.ok _, s₂) =>
      match m.metadata.chain_id with
      | none => delPhase c p id s₂
      | some ch =>
        match c.lrem (RKey.chain p ch) 0 id s₂ with
        | (Except.error e, s₃) => (Except.error e, s₃)
        | (Except.ok _, s₃) => delPhase c p id s₃

end RedisCache

/-- The honest Redis semantics of the `Conn` primitives over `RedisState`,
with lazy TTL expiry (an expired string key behaves as absent) and `WRONGTYPE`
errors on type mismatches, as Redis implements them. The `scans` counter
observes each full key scan. -/
def honestConn (now : Nat) : Conn RedisState where
  kvGet k s :=
    match liveLookup now s k with
    | none => (Except.ok none, s)
    | some (RVal.str v _) => (Except.ok (some v), s)
    | some _ => (Except.error Err.wrongType, s)
  kvSet k v s := (Except.ok (), { s with kv := kvPut s.kv k (RVal.str v none) })
  kvSetEx k v ttl s :=
    (Except.ok (), { s with kv := kvPut s.kv k (RVal.str v (some (now + ttl))) })
  hincr k f d s :=
    match liveLookup now s k with
    | none => (Except.ok d, { s with kv := kvPut s.kv k (RVal.hash [(f, Val.intV d)]) })
    | some (RVal.hash h) =>
      match hGet h f with
      | none => (Except.ok d, { s with kv := kvPut s.kv k (RVal.hash (hPut h f (Val.intV d))) })
      | some (Val.intV n) =>
        (Except.ok (n + d), { s with kv := kvPut s.kv k (RVal.hash (hPut h f (Val.intV (n + d)))) })
      | some _ => (Except.error Err.wrongType, s)
    | some _ => (Except.error Err.wrongType, s)
  hset k f v s :=
    match liveLookup now s k with
    | none => (Except.ok (), { s with kv := kvPut s.kv k (RVal.hash [(f, v)]) })
    | some (RVal.hash h) => (Except.ok (), { s with kv := kvPut s.kv k (RVal.hash (hPut h f v)) })
    | some _ => (Except.error Err.wrongType, s)
  sadd k m s :=
    match liveLookup now s k with
    | none => (Except.ok (), { s with kv := kvPut s.kv k (RVal.rset [m]) })
    | some (RVal.rset l) =>
      (Except.ok (), { s with kv := kvPut s.kv k (RVal.rset (if l.contains m then l else l ++ [m])) })
    | some _ => (Except.error Err.wrongType, s)
  srem k m s :=
    match liveLookup now s k with
    | none => (Except.ok (), s)
    | some (RVal.rset l) =>
      (Except.ok (), { s with kv := kvPut s.kv k (RVal.rset (l.filter (fun x => decide (x ≠ m)))) })
    | some _ => (Except.error Err.wrongType, s)
  rpush k m s :=
    match liveLookup now s k with
    | none => (Except.ok (), { s with kv := kvPut s.kv k (RVal.rlist [m]) })
    | some (RVal.rlist l) =>
      (Except.ok (), { s with kv := kvPut s.kv k (RVal.rlist (l ++ [m])) })
    | some _ => (Except.error Err.wrongType, s)
  lrem k cnt m s :=
    match liveLookup now s k with
    | none => (Except.ok (), s)
    | some (RVal.rlist l) =>
      (Except.ok (), { s with kv := kvPut s.kv k (RVal.rlist (lremList cnt m l)) })
    | some _ => (Except.error Err.wrongType, s)
  del k s := (Except.ok (), { s with kv := kvDrop s.kv k })
  scan p s := (Except.ok (scanThoughtIds now s.kv p), { s with scans := s.scans + 1 })

/-- One Qdrant filter condition as built by `QdrantSearch::search`
(`Condition::matches(field, value)`). -/
inductive FilterCond where
  | matches (field : String) (value : String)
deriving DecidableEq

/-- The `filter_conditions` vector assembled by `QdrantSearch::search`
(`src/search/qdrant_search.rs:92-103`): one equality condition for the
category filter, and one `matches` condition per requested tag. The request's
threshold, instance filter and hybrid flag are never consulted. -/
def buildFilterConds (req : SearchRequest) : List FilterCond :=
  (match req.category_filter with
   | some c => [FilterCond.matches "metadata.category" c]
   | none => []) ++
  (match req.tags_filter with
   | some ts => ts.map (fun t => FilterCond.matches "metadata.tags" t)
   | none => [])

/-- Modelled from Qdrant's documented payload-filter semantics (the vector
index is an external store): `Condition::matches` on the scalar field
`metadata.category` is equality, and on the array field `metadata.tags` it
holds when the array contains the value. -/
def condHolds (m : Memory) : FilterCond → Bool
  | FilterCond.matches f v =>
    if f = "metadata.category" then decide (m.metadata.category = some v)
    else if f = "metadata.tags" then m.metadata.tags.contains v
    else false

/-- Modelled from Qdrant's documented semantics of `Filter::must`: a point
qualifies only when every condition in the list holds (conjunction). -/
def qdrantFilterAccepts (req : SearchRequest) (m : Memory) : Bool :=
  (buildFilterConds req).all (condHolds m)

/-- The external collaborators of `QdrantSearch::search` over an abstract
payload type `π`: the embedding generator, the nearest-neighbor query (given
the query vector, the limit and the optional `Filter::must` condition list —
exactly the arguments the source passes), payload deserialization, and the
sources of the fresh search id (`Uuid::new_v4`) and the elapsed-time
measurement. -/
structure QdrantEnv (π : Type) where
  embed : String → Except Err (List F32)
  searchPoints : List F32 → Nat → Option (List FilterCond) → Except Err (List π)
  parsePayload : π → Except Err Memory
  freshId : Nat
  elapsedMs : Nat

namespace QdrantSearch

variable {π : Type}

/-- `QdrantSearch::search` (`src/search/qdrant_search.rs:76-136`): generate
the query embedding, issue the bounded nearest-neighbor query with the
assembled filter (passed only when non-empty), deserialize every returned
payload into a `Memory` (`?` propagates), and build the `SearchResult` with
`cache_hits` fixed at 0 and `total_results = memories.len()`. -/
def search (env : QdrantEnv π) (req : SearchRequest) : Except Err SearchResult := do
  let emb ← env.embed req.query
  let conds := buildFilterConds req
  let pts ← env.searchPoints emb (req.limit.getD 20)
    (if conds.isEmpty then none else some conds)
  let mems ← pts.mapM env.parsePayload
  Except.ok
    { memories := mems
      search_id := env.freshId
      query_embedding := some emb
      cache_hits := 0
      total_results := mems.length
      search_time_ms := env.elapsedMs }

end QdrantSearch

/-- The two layers `UnifiedRagService::rag_search` composes: the Cache
Layer's `search_cached` and the Search Layer, both abstract (the coordinator
claims are about the composition policy, not the layers). -/
structure RagEnv (π : Type) where
  cacheSearch : SearchRequest → Except Err (List Memory)
  qdrant : QdrantEnv π

/-- The response value of `rag_search`: either the cache results tagged
`"source": "cache"` or a serialized `SearchResult`. The JSON rendering of
either shape is modelled by the constructor. -/
inductive RagResponse where
  | fromCache (memories : List Memory)
  | fromSearch (result : SearchResult)
deriving DecidableEq

/-- The memory sequence carried by a `rag_search` response. -/
def RagResponse.mems : RagResponse → List Memory
  | RagResponse.fromCache ms => ms
  | RagResponse.fromSearch r => r.memories

/-- The total-result count carried by a `rag_search` response (the cache
response reports `"count": cache_results.len()`). -/
def RagResponse.total : RagResponse → Nat
  | RagResponse.fromCache ms => ms.length
  | RagResponse.fromSearch r => r.total_results

/-- `UnifiedRagService::rag_search` (`src/service.rs:126-188`): when
`hybrid_mode` is set, consult `search_cached` first and return a non-empty
cache result tagged as cache-sourced; on an empty cache result or a cache
error fall back to the Search Layer; without `hybrid_mode` go to the Search
Layer directly. A search error is surfaced to the caller (the
`ErrorData::internal_error` message formatting is abstracted away; the
underlying error is preserved). -/
def rag_search (env : RagEnv π) (req : SearchRequest) : Except Err RagResponse :=
  if req.hybrid_mode then
    match env.cacheSearch req with
    | Except.ok cacheResults =>
      if cacheResults.isEmpty then
        (QdrantSearch.search env.qdrant req).map RagResponse.fromSearch
      else Except.ok (RagResponse.fromCache cacheResults)
    | Except.error _ =>
      (QdrantSearch.search env.qdrant req).map RagResponse.fromSearch
  else
    (QdrantSearch.search env.qdrant req).map RagResponse.fromSearch

/-- The combined metadata side effect of a cache-layer read hit: the
`HINCRBY access_count` followed by the `HSET last_accessed` on the metadata
key, under the honest connection (results discarded by the caller). -/
def metaTouch (t : Nat) (p id : String) (s : RedisState) : RedisState :=
  ((honestConn t).hset (RKey.meta p id) "last_accessed" (Val.intV (Int.ofNat t))
    ((honestConn t).hincr (RKey.meta p id) "access_count" 1 s).2).2

/-- The store state after the first two writes of a TTL-less `set` under
the honest connection: primary record and metadata record in place. -/
def setMidState (p id : String) (m : Memory) (s : RedisState) : RedisState :=
  { s with kv :=
      (kvPut (kvPut s.kv (RKey.thought p id) (RVal.str (Val.memV m) none))
        (RKey.meta p id) (RVal.str (Val.metaV (RedisCache.mkMeta p id m)) none)) }

/-- Store well-formedness at one scanned id: the live entry under the
thought key, when present, is a string that deserializes into a `Memory`. -/
def wfAt (t : Nat) (s : RedisState) (p i : String) : Bool :=
  match liveLookup t s (RKey.thought p i) with
  | none => true
  | some (RVal.str v _) => (decodeMemory v).isOk
  | some _ => false

/-- The memories a given id list contributes to the scan, in list order:
the live, deserializable records that pass all three request filters. -/
def matchesOf (t : Nat) (s : RedisState) (p : String) (req : SearchRequest)
    (ids : List String) : List Memory :=
  ids.filterMap (fun i =>
    match liveLookup t s (RKey.thought p i) with
    | some (RVal.str v _) =>
      match decodeMemory v with
      | Except.ok m => if RedisCache.passesFilters req m then some m else none
      | Except.error _ => none
    | _ => none)

/-- All filter-passing memories of the store, in scan order. -/
def scanMatches (t : Nat) (s : RedisState) (p : String) (req : SearchRequest) :
    List Memory :=
  matchesOf t s p req (scanThoughtIds t s.kv p)

/-- Sample metadata used by witnesses and counterexamples. -/
def metaA : MemoryMetadata :=
  { category := some "ops"
    tags := ["a"]
    importance := 5
    chain_id := none
    parent_id := none
    framework := none
    source := "test" }

/-- Sample memory used by witnesses and counterexamples. -/
def memA : Memory :=
  { id := "a"
    instance_id := "CC"
    content := "outage postmortem"
    embedding := none
    metadata := metaA
    created_at := 3
    updated_at := 3
    access_count := 0
    relevance_score := 9 }

/-- Sample request used by witnesses. -/
def reqW : SearchRequest :=
  { query := "outage"
    limit := some 20
    threshold := some 7
    category_filter := some "ops"
    tags_filter := none
    instance_filter := none
    hybrid_mode := true }

/-- A request with limit 0, exhibiting the post-push limit check. -/
def reqLim0 : SearchRequest := { reqW with limit := some 0, hybrid_mode := false }

/-- A request filtering on tags a and b, for the match-any vs match-all
counterexample. -/
def reqTagsAB : SearchRequest :=
  { query := "q"
    limit := none
    threshold := none
    category_filter := none
    tags_filter := some ["a", "b"]
    instance_filter := none
    hybrid_mode := false }

/-- A store holding the single record `memA`. -/
def stW : RedisState :=
  { kv := [(RKey.thought "CC" "a", RVal.str (Val.memV memA) none)], scans := 0 }

/-- The empty store. -/
def stEmpty : RedisState := { kv := [], scans := 0 }

/-- A concrete search environment for witnesses: one indexed point. -/
def qEnvW : QdrantEnv Memory :=
  { embed := fun _ => Except.ok [1]
    searchPoints := fun _ _ _ => Except.ok [memA]
    parsePayload := Except.ok
    freshId := 0
    elapsedMs := 0 }

/-- A coordinator environment whose cache scan always comes back empty. -/
def ragEnvW : RagEnv Memory := { cacheSearch := fun _ => Except.ok [], qdrant := qEnvW }

/-- A coordinator environment whose cache scan always hits. -/
def ragEnvHit : RagEnv Memory :=
  { cacheSearch := fun _ => Except.ok [memA], qdrant := qEnvW }

/-- A connection on which every primitive succeeds except writes to the
metadata key, which fail with a Redis error: the primary record write goes
through while the metadata write does not. -/
def cFaulty : Conn Unit where
  kvGet _ s := (Except.ok none, s)
  kvSet k _ s :=
    (match k with
     | RKey.meta _ _ => Except.error (Err.redis 7)
     | _ => Except.ok (), s)
  kvSetEx _ _ _ s := (Except.ok (), s)
  hincr _ _ d s := (Except.ok d, s)
  hset _ _ _ s := (Except.ok (), s)
  sadd _ _ s := (Except.ok (), s)
  srem _ _ s := (Except.ok (), s)
  rpush _ _ s := (Except.ok (), s)
  lrem _ _ _ s := (Except.ok (), s)
  del _ s := (Except.ok (), s)
  scan _ s := (Except.ok [], s)

/-- A connection on which every primitive succeeds but removals from tag
sets fail: invalidate's index cleanup fails after a successful primary
read. The single key stores `memA` so the read succeeds. -/
def cSremFail : Conn RedisState where
  kvGet k s := (honestConn 0).kvGet k s
  kvSet k v s := (honestConn 0).kvSet k v s
  kvSetEx k v t s := (honestConn 0).kvSetEx k v t s
  hincr k f d s := (honestConn 0).hincr k f d s
  hset k f v s := (honestConn 0).hset k f v s
  sadd k m s := (honestConn 0).sadd k m s
  srem _ _ s := (Except.error (Err.redis 9), s)
  rpush k m s := (honestConn 0).rpush k m s
  lrem k n m s := (honestConn 0).lrem k n m s
  del k s := (honestConn 0).del k s
  scan p s := (honestConn 0).scan p s

/-- A state transition that may create, change or remove the entry at key
`k` but leaves every other key's entry and the scan counter alone. -/
def TouchesOnly (k : RKey) (s s' : RedisState) : Prop :=
  s'.scans = s.scans ∧ ∀ k', k' ≠ k → kvLookup s'.kv k' = kvLookup s.kv k'

theorem kvLookup_cons (k k' : RKey) (v : RVal) (l : List (RKey × RVal)) :
    kvLookup ((k', v) :: l) k = if k = k' then some v else kvLookup l k := rfl

theorem kvLookup_drop_self (l : List (RKey × RVal)) (k : RKey) :
    kvLookup (kvDrop l k) k = none := by
  induction l with
  | nil => rfl
  | cons e rest ih =>
    cases e with
    | mk ek ev =>
      by_cases he : ek = k
      · simpa [kvDrop, he] using ih
      · have hne : k ≠ ek := fun hh => he hh.symm
        simpa [kvDrop, he, kvLookup_cons, hne] using ih

theorem kvLookup_drop_ne (l : List (RKey × RVal)) (k k' : RKey) (h : k' ≠ k) :
    kvLookup (kvDrop l k) k' = kvLookup l k' := by
  induction l with
  | nil => rfl
  | cons e rest ih =>
    cases e with
    | mk ek ev =>
      by_cases he : ek = k
      · subst he
        simp [kvDrop, kvLookup_cons, h, ih]
      · simp [kvDrop, he, kvLookup_cons, ih]

theorem kvLookup_put_self (l : List (RKey × RVal)) (k : RKey) (v : RVal) :
    kvLookup (kvPut l k v) k = some v := by
  simp [kvPut, kvLookup_cons]

theorem kvLookup_put_ne (l : List (RKey × RVal)) (k k' : RKey) (v : RVal)
    (h : k' ≠ k) : kvLookup (kvPut l k v) k' = kvLookup l k' := by
  simp [kvPut, kvLookup_cons, h, kvLookup_drop_ne l k k' h]

theorem liveLookup_congr (t : Nat) (s s' : RedisState) (k : RKey)
    (h : kvLookup s'.kv k = kvLookup s.kv k) :
    liveLookup t s' k = liveLookup t s k := by
  simp [liveLookup, h]

theorem touches_refl (k : RKey) (s : RedisState) : TouchesOnly k s s :=
  ⟨rfl, fun _ _ => rfl⟩

theorem touches_put (k : RKey) (s : RedisState) (v : RVal) :
    TouchesOnly k s { s with kv := kvPut s.kv k v } :=
  ⟨rfl, fun k' h => kvLookup_put_ne s.kv k k' v h⟩

theorem touches_drop (k : RKey) (s : RedisState) :
    TouchesOnly k s { s with kv := kvDrop s.kv k } :=
  ⟨rfl, fun k' h => kvLookup_drop_ne s.kv k k' h⟩

theorem touches_trans {k : RKey} {s s₁ s₂ : RedisState}
    (h1 : TouchesOnly k s s₁) (h2 : TouchesOnly k s₁ s₂) : TouchesOnly k s s₂ :=
  ⟨h2.1.trans h1.1, fun k' h => (h2.2 k' h).trans (h1.2 k' h)⟩

theorem tryThen_pair_ok {σ α β : Type} (a : α) (s : σ) (k : α → σ → Except Err β × σ) :
    tryThen (Except.ok a, s) k = k a s := rfl

theorem tryThen_pair_error {σ α β : Type} (e : Err) (s : σ) (k : α → σ → Except Err β × σ) :
    tryThen (Except.error e, s) k = (Except.error e, s) := rfl

theorem tryThen_ok_proj {σ α β : Type} (r : Except Err α × σ)
    (k : α → σ → Except Err β × σ) (a : α) (h : r.1 = Except.ok a) :
    tryThen r k = k a r.2 := by
  rcases r with ⟨r1, s⟩
  simp only at h
  subst h
  rfl

theorem tryThen_error_proj {σ α β : Type} (r : Except Err α × σ)
    (k : α → σ → Except Err β × σ) (e : Err) (h : r.1 = Except.error e) :
    tryThen r k = (Except.error e, r.2) := by
  rcases r with ⟨r1, s⟩
  simp only at h
  subst h
  rfl

theorem kvGet_honest_of_str (t : Nat) (k : RKey) (s : RedisState) (v : Val)
    (exp : Option Nat) (h : liveLookup t s k = some (RVal.str v exp)) :
    (honestConn t).kvGet k s = (Except.ok (some v), s) := by
  simp [honestConn, h]

theorem kvGet_state (t : Nat) (k : RKey) (s : RedisState) :
    ((honestConn t).kvGet k s).2 = s := by
  simp only [honestConn]
  repeat' split
  all_goals rfl

theorem hincr_touches (t : Nat) (k : RKey) (f : String) (d : Int) (s : RedisState) :
    TouchesOnly k s ((honestConn t).hincr k f d s).2 := by
  simp only [honestConn]
  repeat' split
  all_goals first
    | exact touches_put _ _ _
    | exact touches_refl _ _

theorem hset_touches (t : Nat) (k : RKey) (f : String) (v : Val) (s : RedisState) :
    TouchesOnly k s ((honestConn t).hset k f v s).2 := by
  simp only [honestConn]
  repeat' split
  all_goals first
    | exact touches_put _ _ _
    | exact touches_refl _ _

theorem metaTouch_touches (t : Nat) (p id : String) (s : RedisState) :
    TouchesOnly (RKey.meta p id) s (metaTouch t p id s) :=
  touches_trans (hincr_touches t (RKey.meta p id) "access_count" 1 s)
    (hset_touches t (RKey.meta p id) "last_accessed" (Val.intV (Int.ofNat t)) _)

theorem sadd_touches (t : Nat) (k : RKey) (mem : String) (s : RedisState) :
    TouchesOnly k s ((honestConn t).sadd k mem s).2 := by
  simp only [honestConn]
  repeat' split
  all_goals first
    | exact touches_put _ _ _
    | exact touches_refl _ _

theorem rpush_touches (t : Nat) (k : RKey) (mem : String) (s : RedisState) :
    TouchesOnly k s ((honestConn t).rpush k mem s).2 := by
  simp only [honestConn]
  repeat' split
  all_goals first
    | exact touches_put _ _ _
    | exact touches_refl _ _

/-- Behavior of a cache-layer read under the honest connection: a pure read
of the thought key plus (on a deserializable hit) the metadata touch. -/
theorem get_honest (t : Nat) (p id : String) (s : RedisState) :
    RedisCache.get (honestConn t) p id t s =
      match liveLookup t s (RKey.thought p id) with
      | none => (Except.ok none, s)
      | some (RVal.str v _) =>
        (match decodeMemory v with
         | Except.error e => (Except.error e, s)
         | Except.ok m => (Except.ok (some m), metaTouch t p id s))
      | some _ => (Except.error Err.wrongType, s) := by
  unfold RedisCache.get
  rcases h1 : liveLookup t s (RKey.thought p id) with _ | v₁
  · simp [honestConn, h1]
  · cases v₁ with
    | str v exp =>
      rcases h2 : decodeMemory v with m | e
      · simp [honestConn, h1, h2, metaTouch]
      · simp [honestConn, h1, h2, metaTouch]
    | hash hs => simp [honestConn, h1]
    | rset ms => simp [honestConn, h1]
    | rlist is => simp [honestConn, h1]

theorem get_touches (t : Nat) (p id : String) (s : RedisState) :
    TouchesOnly (RKey.meta p id) s ((RedisCache.get (honestConn t) p id t s).2) := by
  rw [get_honest]
  repeat' split
  all_goals first
    | exact touches_refl _ _
    | exact metaTouch_touches _ _ _ _

theorem scanLoop_cons_err {σ : Type} (c : Conn σ) (p : String) (req : SearchRequest)
    (now : Nat) (i : String) (rest : List String) (acc : List Memory) (s s₁ : σ)
    (e : Err) (h : RedisCache.get c p i now s = (Except.error e, s₁)) :
    RedisCache.scanLoop c p req now (i :: rest) acc s = (Except.error e, s₁) := by
  simp only [RedisCache.scanLoop]
  rw [h]

theorem scanLoop_cons_none {σ : Type} (c : Conn σ) (p : String) (req : SearchRequest)
    (now : Nat) (i : String) (rest : List String) (acc : List Memory) (s s₁ : σ)
    (h : RedisCache.get c p i now s = (Except.ok none, s₁)) :
    RedisCache.scanLoop c p req now (i :: rest) acc s =
      RedisCache.scanLoop c p req now rest acc s₁ := by
  simp only [RedisCache.scanLoop]
  rw [h]

theorem scanLoop_cons_skip {σ : Type} (c : Conn σ) (p : String) (req : SearchRequest)
    (now : Nat) (i : String) (rest : List String) (acc : List Memory) (s s₁ : σ)
    (m : Memory) (h : RedisCache.get c p i now s = (Except.ok (some m), s₁))
    (hf : RedisCache.passesFilters req m = false) :
    RedisCache.scanLoop c p req now (i :: rest) acc s =
      RedisCache.scanLoop c p req now rest acc s₁ := by
  simp only [RedisCache.scanLoop]
  rw [h]
  simp [hf]

theorem scanLoop_cons_stop {σ : Type} (c : Conn σ) (p : String) (req : SearchRequest)
    (now : Nat) (i : String) (rest : List String) (acc : List Memory) (s s₁ : σ)
    (m : Memory) (h : RedisCache.get c p i now s = (Except.ok (some m), s₁))
    (hf : RedisCache.passesFilters req m = true)
    (hlim : req.limit.getD 20 ≤ acc.length + 1) :
    RedisCache.scanLoop c p req now (i :: rest) acc s = (Except.ok (acc ++ [m]), s₁) := by
  simp only [RedisCache.scanLoop]
  rw [h]
  simp [hf, List.length_append, hlim]

theorem scanLoop_cons_push {σ : Type} (c : Conn σ) (p : String) (req : SearchRequest)
    (now : Nat) (i : String) (rest : List String) (acc : List Memory) (s s₁ : σ)
    (m : Memory) (h : RedisCache.get c p i now s = (Except.ok (some m), s₁))
    (hf : RedisCache.passesFilters req m = true)
    (hlim : ¬ req.limit.getD 20 ≤ acc.length + 1) :
    RedisCache.scanLoop c p req now (i :: rest) acc s =
      RedisCache.scanLoop c p req now rest (acc ++ [m]) s₁ := by
  simp only [RedisCache.scanLoop]
  rw [h]
  simp [hf, List.length_append, hlim]

theorem matchesOf_congr (t : Nat) (p : String) (req : SearchRequest)
    (ids : List String) (s s' : RedisState)
    (h : ∀ i, liveLookup t s' (RKey.thought p i) = liveLookup t s (RKey.thought p i)) :
    matchesOf t s' p req ids = matchesOf t s p req ids := by
  induction ids with
  | nil => rfl
  | cons i rest ih =>
    simp only [matchesOf, List.filterMap_cons] at ih ⊢
    rw [h i, ih]

theorem wfAt_congr (t : Nat) (p i : String) (s s' : RedisState)
    (h : liveLookup t s' (RKey.thought p i) = liveLookup t s (RKey.thought p i)) :
    wfAt t s' p i = wfAt t s p i := by
  unfold wfAt
  rw [h]

theorem thought_ne_meta (p i q j : String) : RKey.thought p i ≠ RKey.meta q j := by
  intro h
  cases h

theorem qcache_ne_meta (req : SearchRequest) (q j : String) :
    RKey.qcache req ≠ RKey.meta q j := by
  intro h
  cases h

theorem metaTouch_thought (t : Nat) (p id : String) (s : RedisState) (q i : String) :
    liveLookup t (metaTouch t p id s) (RKey.thought q i) =
      liveLookup t s (RKey.thought q i) :=
  liveLookup_congr _ _ _ _ ((metaTouch_touches t p id s).2 _ (thought_ne_meta q i p id))

/-- State effect of the honest scan loop: only metadata keys of the scanned
instance are modified, and no further scan is issued. -/
theorem scanLoop_state (t : Nat) (p : String) (req : SearchRequest) :
    ∀ (ids : List String) (acc : List Memory) (s : RedisState),
      (∀ k, (∀ i, k ≠ RKey.meta p i) →
        kvLookup (RedisCache.scanLoop (honestConn t) p req t ids acc s).2.kv k = kvLookup s.kv k)
      ∧ (RedisCache.scanLoop (honestConn t) p req t ids acc s).2.scans = s.scans := by
  intro ids
  induction ids with
  | nil =>
    intro acc s
    exact ⟨fun k _ => rfl, rfl⟩
  | cons i rest ih =>
    intro acc s
    have hg := get_honest t p i s
    have htch := get_touches t p i s
    cases h1 : liveLookup t s (RKey.thought p i) with
    | none =>
      simp only [h1] at hg
      rw [scanLoop_cons_none _ _ _ _ _ _ _ _ _ hg]
      exact ih acc s
    | some v =>
      cases v with
      | str v exp =>
        cases h2 : decodeMemory v with
        | error e =>
          simp only [h1, h2] at hg
          rw [scanLoop_cons_err _ _ _ _ _ _ _ _ _ _ hg]
          exact ⟨fun k _ => rfl, rfl⟩
        | ok m =>
          simp only [h1, h2] at hg
          have hmt := metaTouch_touches t p i s
          by_cases hf : RedisCache.passesFilters req m
          · by_cases hlim : req.limit.getD 20 ≤ acc.length + 1
            · rw [scanLoop_cons_stop _ _ _ _ _ _ _ _ _ _ hg hf hlim]
              exact ⟨fun k hk => hmt.2 k (hk i), hmt.1⟩
            · rw [scanLoop_cons_push _ _ _ _ _ _ _ _ _ _ hg hf hlim]
              refine ⟨fun k hk => ?_, ?_⟩
              · exact ((ih (acc ++ [m]) (metaTouch t p i s)).1 k hk).trans (hmt.2 k (hk i))
              · exact ((ih (acc ++ [m]) (metaTouch t p i s)).2).trans hmt.1
          · rw [scanLoop_cons_skip _ _ _ _ _ _ _ _ _ _ hg (by simpa using hf)]
            refine ⟨fun k hk => ?_, ?_⟩
            · exact ((ih acc (metaTouch t p i s)).1 k hk).trans (hmt.2 k (hk i))
            · exact ((ih acc (metaTouch t p i s)).2).trans hmt.1
      | hash hs =>
        simp only [h1] at hg
        rw [scanLoop_cons_err _ _ _ _ _ _ _ _ _ _ hg]
        exact ⟨fun k _ => rfl, rfl⟩
      | rset ms =>
        simp only [h1] at hg
        rw [scanLoop_cons_err _ _ _ _ _ _ _ _ _ _ hg]
        exact ⟨fun k _ => rfl, rfl⟩
      | rlist its =>
        simp only [h1] at hg
        rw [scanLoop_cons_err _ _ _ _ _ _ _ _ _ _ hg]
        exact ⟨fun k _ => rfl, rfl⟩

/-- Result of the honest scan loop on a well-formed store: the accumulator
extended with the next filter-passing records, cut off at
`max 1 limit` — one more than a zero limit because the length check runs
only after a push. -/
theorem scanLoop_spec (t : Nat) (p : String) (req : SearchRequest) :
    ∀ (ids : List String) (acc : List Memory) (s : RedisState),
      acc.length < max 1 (req.limit.getD 20) →
      (∀ i ∈ ids, wfAt t s p i = true) →
      (RedisCache.scanLoop (honestConn t) p req t ids acc s).1 =
        Except.ok (acc ++ (matchesOf t s p req ids).take
          (max 1 (req.limit.getD 20) - acc.length)) := by
  intro ids
  induction ids with
  | nil =>
    intro acc s hacc hwf
    simp [RedisCache.scanLoop, matchesOf]
  | cons i rest ih =>
    intro acc s hacc hwf
    have hg := get_honest t p i s
    have hwfi : wfAt t s p i = true := hwf i (by simp)
    cases h1 : liveLookup t s (RKey.thought p i) with
    | none =>
      simp only [h1] at hg
      rw [scanLoop_cons_none _ _ _ _ _ _ _ _ _ hg]
      have hm : matchesOf t s p req (i :: rest) = matchesOf t s p req rest := by
        simp [matchesOf, List.filterMap_cons, h1]
      rw [hm]
      exact ih acc s hacc (fun j hj => hwf j (by simp [hj]))
    | some v =>
      cases v with
      | str v exp =>
        cases h2 : decodeMemory v with
        | error e =>
          exfalso
          simp [wfAt, h1, h2, Except.isOk, Except.toBool] at hwfi
        | ok m =>
          simp only [h1, h2] at hg
          have hthought := fun j => metaTouch_thought t p i s p j
          have hm : matchesOf t s p req (i :: rest) =
              (if RedisCache.passesFilters req m then [m] else []) ++ matchesOf t s p req rest := by
            by_cases hf : RedisCache.passesFilters req m <;>
              simp [matchesOf, List.filterMap_cons, h1, h2, hf]
          by_cases hf : RedisCache.passesFilters req m
          · by_cases hlim : req.limit.getD 20 ≤ acc.length + 1
            · rw [scanLoop_cons_stop _ _ _ _ _ _ _ _ _ _ hg hf hlim]
              have hN : max 1 (req.limit.getD 20) - acc.length = 1 := by
                have h2m := le_max_right 1 (req.limit.getD 20)
                rcases max_choice 1 (req.limit.getD 20) with hm | hm <;>
                  rw [hm] at h2m hacc ⊢ <;> omega
              rw [hm, hN]
              simp [hf]
            · rw [scanLoop_cons_push _ _ _ _ _ _ _ _ _ _ hg hf hlim]
              have hacc' : (acc ++ [m]).length < max 1 (req.limit.getD 20) := by
                have h2m := le_max_right 1 (req.limit.getD 20)
                simp only [List.length_append, List.length_cons, List.length_nil]
                rcases max_choice 1 (req.limit.getD 20) with hm | hm <;>
                  rw [hm] at h2m ⊢ <;> omega
              have hwf' : ∀ j ∈ rest, wfAt t (metaTouch t p i s) p j = true := by
                intro j hj
                rw [wfAt_congr t p j s _ (hthought j)]
                exact hwf j (by simp [hj])
              have hrec := ih (acc ++ [m]) (metaTouch t p i s) hacc' hwf'
              rw [matchesOf_congr t p req rest s _ hthought] at hrec
              rw [hrec, hm]
              have hstep : max 1 (req.limit.getD 20) - acc.length =
                  (max 1 (req.limit.getD 20) - (acc.length + 1)) + 1 := by
                have h2m := le_max_right 1 (req.limit.getD 20)
                rcases max_choice 1 (req.limit.getD 20) with hm | hm <;>
                  rw [hm] at h2m hacc ⊢ <;> omega
              rw [hstep]
              simp [hf, List.append_assoc, List.length_append]
          · rw [scanLoop_cons_skip _ _ _ _ _ _ _ _ _ _ hg (by simpa using hf)]
            have hwf' : ∀ j ∈ rest, wfAt t (metaTouch t p i s) p j = true := by
              intro j hj
              rw [wfAt_congr t p j s _ (hthought j)]
              exact hwf j (by simp [hj])
            have hrec := ih acc (metaTouch t p i s) hacc hwf'
            rw [matchesOf_congr t p req rest s _ hthought] at hrec
            rw [hrec, hm]
            simp [hf]
      | hash hs =>
        exfalso
        simp [wfAt, h1] at hwfi
      | rset ms =>
        exfalso
        simp [wfAt, h1] at hwfi
      | rlist its =>
        exfalso
        simp [wfAt, h1] at hwfi

/-- C1: the coordinator is a strict two-tier waterfall. With hybrid mode off,
`rag_search` returns the Search Layer's result (or error) as-is without
consulting the Cache Layer (the result is insensitive to the cache
component). With hybrid mode on: a non-empty cache result is returned
cache-tagged without calling the Search Layer (the result is insensitive to
the search component); an empty cache result or a cache error falls back to
the Search Layer, whose result or error is returned. -/
theorem c1_coordinator_waterfall {π : Type} (env : RagEnv π) (req : SearchRequest) :
    (req.hybrid_mode = false →
      rag_search env req = (QdrantSearch.search env.qdrant req).map RagResponse.fromSearch
      ∧ ∀ cs', rag_search { env with cacheSearch := cs' } req = rag_search env req)
    ∧ (∀ rs, req.hybrid_mode = true → env.cacheSearch req = Except.ok rs → rs ≠ [] →
      rag_search env req = Except.ok (RagResponse.fromCache rs)
      ∧ ∀ q' : QdrantEnv π, rag_search { env with qdrant := q' } req = rag_search env req)
    ∧ (req.hybrid_mode = true → env.cacheSearch req = Except.ok [] →
      rag_search env req = (QdrantSearch.search env.qdrant req).map RagResponse.fromSearch)
    ∧ (∀ e, req.hybrid_mode = true → env.cacheSearch req = Except.error e →
      rag_search env req = (QdrantSearch.search env.qdrant req).map RagResponse.fromSearch) := by
  refine ⟨fun hb => ⟨?_, fun cs' => ?_⟩, fun rs hb hc hne => ⟨?_, fun q' => ?_⟩,
    fun hb hc => ?_, fun e hb hc => ?_⟩
  · simp [rag_search, hb]
  · simp [rag_search, hb]
  · simp [rag_search, hb, hc, List.isEmpty_iff, hne]
  · simp [rag_search, hb, hc, List.isEmpty_iff, hne]
  · simp [rag_search, hb, hc]
  · simp [rag_search, hb, hc]

/-- Witness for C1: a concrete non-hybrid request goes straight to the
Search Layer. -/
theorem c1_coordinator_waterfall_witness :
    rag_search ragEnvW reqLim0 =
      (QdrantSearch.search ragEnvW.qdrant reqLim0).map RagResponse.fromSearch :=
  ((c1_coordinator_waterfall ragEnvW reqLim0).1 rfl).1

/-- C3 counterexample: the claim says match-any tags semantics, but a memory
carrying tag a (one of the two requested tags a, b) is rejected by the
filter `QdrantSearch::search` builds, because each tag becomes its own
condition inside `Filter::must`. -/
theorem c3_counterexample :
    qdrantFilterAccepts reqTagsAB memA = false ∧
    memA.metadata.tags.contains "a" = true ∧
    reqTagsAB.tags_filter = some ["a", "b"] ∧
    reqTagsAB.category_filter = none := by
  refine ⟨?_, rfl, rfl, rfl⟩
  decide

theorem condHolds_category (m : Memory) (c : String) :
    condHolds m (FilterCond.matches "metadata.category" c) =
      decide (m.metadata.category = some c) := rfl

theorem condHolds_tag (m : Memory) (tg : String) :
    condHolds m (FilterCond.matches "metadata.tags" tg) =
      m.metadata.tags.contains tg := by
  simp [condHolds]

/-- C3 amended: the vector search's tag filtering is match-ALL, not
match-any — with a tags filter present, the assembled `Filter::must` accepts
a memory iff the category condition (when supplied) holds and the memory
carries every requested tag. -/
theorem c3_tags_match_all (req : SearchRequest) (m : Memory) (ts : List String)
    (h : req.tags_filter = some ts) :
    qdrantFilterAccepts req m = true ↔
      ((∀ c, req.category_filter = some c → m.metadata.category = some c) ∧
       ∀ tg ∈ ts, m.metadata.tags.contains tg = true) := by
  unfold qdrantFilterAccepts buildFilterConds
  rw [h]
  cases hc : req.category_filter with
  | none =>
    simp [List.all_eq_true, condHolds_tag]
  | some c =>
    simp [List.all_eq_true, condHolds_tag, condHolds_category]

/-- Witness for C3's amended statement at a concrete request and memory. -/
theorem c3_tags_match_all_witness :
    qdrantFilterAccepts reqTagsAB memA = true ↔
      ((∀ c, reqTagsAB.category_filter = some c → memA.metadata.category = some c) ∧
       ∀ tg ∈ ["a", "b"], memA.metadata.tags.contains tg = true) :=
  c3_tags_match_all reqTagsAB memA ["a", "b"] rfl

/-- C4: a hybrid request whose cache scan comes back empty yields the same
memory sequence and total-result count as the direct (non-hybrid) request
with identical parameters. -/
theorem c4_hybrid_empty_cache_eq_direct {π : Type} (env : RagEnv π) (r : SearchRequest)
    (hc : env.cacheSearch { r with hybrid_mode := true } = Except.ok []) :
    (rag_search env { r with hybrid_mode := true }).map
        (fun resp => (resp.mems, resp.total)) =
      (rag_search env { r with hybrid_mode := false }).map
        (fun resp => (resp.mems, resp.total)) := by
  have hs : QdrantSearch.search env.qdrant { r with hybrid_mode := true } =
      QdrantSearch.search env.qdrant { r with hybrid_mode := false } := rfl
  simp [rag_search, hc, hs]

/-- Witness for C4 at a concrete environment with an always-empty cache. -/
theorem c4_hybrid_empty_cache_eq_direct_witness :
    (rag_search ragEnvW { reqW with hybrid_mode := true }).map
        (fun resp => (resp.mems, resp.total)) =
      (rag_search ragEnvW { reqW with hybrid_mode := false }).map
        (fun resp => (resp.mems, resp.total)) :=
  c4_hybrid_empty_cache_eq_direct ragEnvW reqW rfl

/-- C9: the similarity threshold is accepted but never applied — two vector
searches identical except for the threshold return the same memories and
total-result count, for every environment. -/
theorem c9_threshold_noninterference {π : Type} (env : QdrantEnv π)
    (r : SearchRequest) (t1 t2 : Option F32) :
    (QdrantSearch.search env { r with threshold := t1 }).map
        (fun res => (res.memories, res.total_results)) =
      (QdrantSearch.search env { r with threshold := t2 }).map
        (fun res => (res.memories, res.total_results)) := rfl

/-- C10: the vector search never reads the instance filter — the assembled
filter conditions and the whole search result are unchanged by it — and
consequently the hybrid fallback path (empty cache result or cache error on
both sides) is also unchanged by it. -/
theorem c10_instance_filter_unread {π : Type} :
    (∀ (env : QdrantEnv π) (r : SearchRequest) (f1 f2 : Option (List String)),
      buildFilterConds { r with instance_filter := f1 } =
        buildFilterConds { r with instance_filter := f2 }
      ∧ QdrantSearch.search env { r with instance_filter := f1 } =
        QdrantSearch.search env { r with instance_filter := f2 })
    ∧ (∀ (env : RagEnv π) (r : SearchRequest) (f1 f2 : Option (List String)),
      (env.cacheSearch { r with instance_filter := f1 } = Except.ok [] ∨
        ∃ e, env.cacheSearch { r with instance_filter := f1 } = Except.error e) →
      (env.cacheSearch { r with instance_filter := f2 } = Except.ok [] ∨
        ∃ e, env.cacheSearch { r with instance_filter := f2 } = Except.error e) →
      rag_search env { r with instance_filter := f1 } =
        rag_search env { r with instance_filter := f2 }) := by
  constructor
  · intro env r f1 f2
    exact ⟨rfl, rfl⟩
  · intro env r f1 f2 h1 h2
    have hs : ∀ b : Bool,
        QdrantSearch.search env.qdrant { r with instance_filter := f1, hybrid_mode := b } =
          QdrantSearch.search env.qdrant { r with instance_filter := f2, hybrid_mode := b } :=
      fun _ => rfl
    by_cases hb : r.hybrid_mode
    · rcases h1 with h1 | ⟨e1, h1⟩ <;> rcases h2 with h2 | ⟨e2, h2⟩ <;>
        simp only [hb] at h1 h2 <;>
        simp [rag_search, hb, h1, h2, hs true, hs false]
    · simp [rag_search, hb, hs true, hs false]

/-- Witness for C10's fallback conjunct at a concrete environment. -/
theorem c10_instance_filter_unread_witness :
    rag_search ragEnvW { reqW with instance_filter := none } =
      rag_search ragEnvW { reqW with instance_filter := some ["CC"] } :=
  c10_instance_filter_unread.2 ragEnvW reqW none (some ["CC"]) (Or.inl rfl) (Or.inl rfl)

/-- C5 counterexample: on a connection where the primary-record write
succeeds but the metadata write fails, `set` returns the metadata-write
error to the caller instead of swallowing it. -/
theorem c5_counterexample :
    (cFaulty.kvSet (RKey.thought "CC" "m1") (Val.memV memA) ()).1 = Except.ok () ∧
    (RedisCache.set cFaulty "CC" "m1" memA none ()).1 = Except.error (Err.redis 7) := by
  exact ⟨rfl, rfl⟩

/-- C5 amended: the swallowing policy holds only for `get` — its
access-count and last-accessed updates are discarded with `let _ =` and a
successful primary read returns the record no matter how they fail. In
`set` and `invalidate`, metadata writes, tag-set updates and chain-list
updates are each followed by `?`, so their failures propagate to the
caller. -/
theorem c5_side_effect_policy {σ : Type} :
    (∀ (c : Conn σ) (p id : String) (t : Nat) (s : σ) (v : Val) (m : Memory),
      (c.kvGet (RKey.thought p id) s).1 = Except.ok (some v) →
      decodeMemory v = Except.ok m →
      (RedisCache.get c p id t s).1 = Except.ok (some m))
    ∧ (∀ (c : Conn σ) (p id : String) (m : Memory) (s : σ) (e : Err),
      (c.kvSet (RKey.thought p id) (Val.memV m) s).1 = Except.ok () →
      (c.kvSet (RKey.meta p id) (Val.metaV (RedisCache.mkMeta p id m))
          (c.kvSet (RKey.thought p id) (Val.memV m) s).2).1 = Except.error e →
      (RedisCache.set c p id m none s).1 = Except.error e)
    ∧ (∀ (c : Conn σ) (p id : String) (t : Nat) (s : σ) (m : Memory)
        (t0 : String) (ts : List String) (e : Err),
      (RedisCache.get c p id t s).1 = Except.ok (some m) →
      m.metadata.tags = t0 :: ts →
      (c.srem (RKey.tag p t0) id (RedisCache.get c p id t s).2).1 = Except.error e →
      (RedisCache.invalidate c p id t s).1 = Except.error e) := by
  refine ⟨?_, ?_, ?_⟩
  · intro c p id t s v m h1 h2
    unfold RedisCache.get
    rcases hkv : c.kvGet (RKey.thought p id) s with ⟨r, s₁⟩
    rw [hkv] at h1
    simp only at h1
    subst h1
    simp [h2]
  · intro c p id m s e h1 h2
    simp only [RedisCache.set]
    rw [tryThen_ok_proj _ _ () h1]
    rw [tryThen_error_proj _ _ e h2]
  · intro c p id t s m t0 ts e h1 h2 h3
    unfold RedisCache.invalidate
    rcases hg : RedisCache.get c p id t s with ⟨rg, s₁⟩
    rw [hg] at h1 h3
    simp only at h1 h3
    subst h1
    simp only
    rw [h2]
    unfold RedisCache.sremAll
    rcases hs : c.srem (RKey.tag p t0) id s₁ with ⟨rs, s₂⟩
    rw [hs] at h3
    simp only at h3
    subst h3
    simp [hs]

/-- Witness for C5's amended statement: the metadata-write failure of
`cFaulty` surfaces from `set`. -/
theorem c5_side_effect_policy_witness :
    (RedisCache.set cFaulty "CC" "m2" memA none ()).1 = Except.error (Err.redis 7) :=
  c5_side_effect_policy.2.1 cFaulty "CC" "m2" memA () (Err.redis 7) rfl rfl

theorem saddAll_honest_state (t : Nat) (p id : String) :
    ∀ (ts : List String) (s : RedisState) (k : RKey),
      (∀ u, k ≠ RKey.tag p u) →
      kvLookup (RedisCache.saddAll (honestConn t) p id ts s).2.kv k = kvLookup s.kv k := by
  intro ts
  induction ts with
  | nil =>
    intro s k hk
    rfl
  | cons t0 ts ih =>
    intro s k hk
    have htch := sadd_touches t (RKey.tag p t0) id s
    rcases hs : (honestConn t).sadd (RKey.tag p t0) id s with ⟨r, s₁⟩
    have hagree : kvLookup s₁.kv k = kvLookup s.kv k := by
      have h2 := htch.2 k (hk t0)
      rw [hs] at h2
      exact h2
    cases r with
    | error e =>
      simp only [RedisCache.saddAll]
      rw [hs]
      exact hagree
    | ok u =>
      simp only [RedisCache.saddAll]
      rw [hs]
      exact (ih s₁ k hk).trans hagree

theorem setTail_thought (t : Nat) (p id : String) (m : Memory) (S : RedisState)
    (hS : kvLookup S.kv (RKey.thought p id) = some (RVal.str (Val.memV m) none))
    (hok : (tryThen (RedisCache.saddAll (honestConn t) p id m.metadata.tags S)
        (fun _ s₃ => RedisCache.chainStep (honestConn t) p id m.metadata.chain_id s₃)).1 =
      Except.ok ()) :
    kvLookup ((tryThen (RedisCache.saddAll (honestConn t) p id m.metadata.tags S)
        (fun _ s₃ => RedisCache.chainStep (honestConn t) p id m.metadata.chain_id s₃)).2).kv
      (RKey.thought p id) = some (RVal.str (Val.memV m) none) := by
  have h1 := saddAll_honest_state t p id m.metadata.tags S (RKey.thought p id)
    (fun u => by intro hh; cases hh)
  cases hra : (RedisCache.saddAll (honestConn t) p id m.metadata.tags S).1 with
  | error e =>
    rw [tryThen_error_proj _ _ e hra] at hok
    simp at hok
  | ok u =>
    rw [tryThen_ok_proj _ _ u hra] at hok ⊢
    cases hch : m.metadata.chain_id with
    | none =>
      simp only [RedisCache.chainStep]
      exact h1.trans hS
    | some ch =>
      rw [hch] at hok
      simp only [RedisCache.chainStep] at hok ⊢
      have h2 := rpush_touches t (RKey.chain p ch) id
        (RedisCache.saddAll (honestConn t) p id m.metadata.tags S).2
      cases hrp : ((honestConn t).rpush (RKey.chain p ch) id
          (RedisCache.saddAll (honestConn t) p id m.metadata.tags S).2).1 with
      | error e =>
        rw [tryThen_error_proj _ _ e hrp] at hok
        simp at hok
      | ok u2 =>
        rw [tryThen_ok_proj _ _ u2 hrp]
        exact ((h2.2 (RKey.thought p id) (by intro hh; cases hh)).trans h1).trans hS

theorem set_honest_thought (t : Nat) (p id : String) (m : Memory) (s : RedisState)
    (hok : (RedisCache.set (honestConn t) p id m none s).1 = Except.ok ()) :
    kvLookup ((RedisCache.set (honestConn t) p id m none s).2).kv (RKey.thought p id) =
      some (RVal.str (Val.memV m) none) := by
  simp only [RedisCache.set, honestConn, tryThen_pair_ok] at hok ⊢
  refine setTail_thought t p id m _ ?_ hok
  rw [kvLookup_put_ne _ _ _ _ (by intro hh; cases hh)]
  exact kvLookup_put_self _ _ _

/-- C7: storing a record with `set` and fetching it back with `get` before
any eviction or invalidation returns a record whose content, metadata,
creation and update timestamps equal the stored values — the round trip
through the cache preserves them. -/
theorem c7_set_get_round_trip (t1 t2 : Nat) (p id : String) (m : Memory) (s : RedisState)
    (hok : (RedisCache.set (honestConn t1) p id m none s).1 = Except.ok ()) :
    ∃ m', (RedisCache.get (honestConn t2) p id t2
        ((RedisCache.set (honestConn t1) p id m none s).2)).1 = Except.ok (some m') ∧
      m'.content = m.content ∧ m'.metadata = m.metadata ∧
      m'.created_at = m.created_at ∧ m'.updated_at = m.updated_at := by
  refine ⟨m, ?_, rfl, rfl, rfl, rfl⟩
  rw [get_honest]
  have hl : liveLookup t2 ((RedisCache.set (honestConn t1) p id m none s).2)
      (RKey.thought p id) = some (RVal.str (Val.memV m) none) := by
    simp [liveLookup, set_honest_thought t1 p id m s hok, liveExp]
  rw [hl]
  rfl

/-- Witness for C7 on the empty store. -/
theorem c7_set_get_round_trip_witness :
    ∃ m', (RedisCache.get (honestConn 9) "CC" "a" 9
        ((RedisCache.set (honestConn 3) "CC" "a" memA none stEmpty).2)).1 =
          Except.ok (some m') ∧
      m'.content = memA.content ∧ m'.metadata = memA.metadata ∧
      m'.created_at = memA.created_at ∧ m'.updated_at = memA.updated_at :=
  c7_set_get_round_trip 3 9 "CC" "a" memA stEmpty (by rfl)

/-- C8: invalidating an id that is not in the cache returns success, skips
all tag-set and chain-list cleanup, leaves no primary record, metadata
entry or index trace for that id, and modifies no other key. -/
theorem c8_invalidate_missing (t : Nat) (p id : String) (s : RedisState)
    (hmiss : liveLookup t s (RKey.thought p id) = none)
    (htags : ∀ u ms, liveLookup t s (RKey.tag p u) = some (RVal.rset ms) → ¬ id ∈ ms)
    (hchains : ∀ ch its, liveLookup t s (RKey.chain p ch) = some (RVal.rlist its) →
      ¬ id ∈ its) :
    (RedisCache.invalidate (honestConn t) p id t s).1 = Except.ok () ∧
    liveLookup t (RedisCache.invalidate (honestConn t) p id t s).2 (RKey.thought p id) = none ∧
    liveLookup t (RedisCache.invalidate (honestConn t) p id t s).2 (RKey.meta p id) = none ∧
    (∀ k, k ≠ RKey.thought p id → k ≠ RKey.meta p id →
      kvLookup (RedisCache.invalidate (honestConn t) p id t s).2.kv k = kvLookup s.kv k) ∧
    (∀ u ms, liveLookup t (RedisCache.invalidate (honestConn t) p id t s).2 (RKey.tag p u) =
      some (RVal.rset ms) → ¬ id ∈ ms) ∧
    (∀ ch its, liveLookup t (RedisCache.invalidate (honestConn t) p id t s).2 (RKey.chain p ch) =
      some (RVal.rlist its) → ¬ id ∈ its) := by
  have hinv : RedisCache.invalidate (honestConn t) p id t s =
      (Except.ok (), { s with kv := kvDrop (kvDrop s.kv (RKey.thought p id)) (RKey.meta p id) }) := by
    unfold RedisCache.invalidate
    rw [get_honest, hmiss]
    rfl
  rw [hinv]
  have hdrop : ∀ k, k ≠ RKey.thought p id → k ≠ RKey.meta p id →
      kvLookup (kvDrop (kvDrop s.kv (RKey.thought p id)) (RKey.meta p id)) k = kvLookup s.kv k := by
    intro k h1 h2
    rw [kvLookup_drop_ne _ _ _ h2, kvLookup_drop_ne _ _ _ h1]
  refine ⟨rfl, ?_, ?_, hdrop, ?_, ?_⟩
  · simp [liveLookup, kvLookup_drop_ne _ _ _ (thought_ne_meta p id p id), kvLookup_drop_self]
  · simp [liveLookup, kvLookup_drop_self]
  · intro u ms h
    rw [liveLookup_congr t s _ (RKey.tag p u)
      (hdrop _ (by intro hh; cases hh) (by intro hh; cases hh))] at h
    exact htags u ms h
  · intro ch its h
    rw [liveLookup_congr t s _ (RKey.chain p ch)
      (hdrop _ (by intro hh; cases hh) (by intro hh; cases hh))] at h
    exact hchains ch its h

/-- Witness for C8: invalidating the absent id zz on a store that holds only
the record a. -/
theorem c8_invalidate_missing_witness :
    (RedisCache.invalidate (honestConn 0) "CC" "zz" 0 stW).1 = Except.ok () ∧
    liveLookup 0 (RedisCache.invalidate (honestConn 0) "CC" "zz" 0 stW).2
      (RKey.thought "CC" "zz") = none :=
  ⟨(c8_invalidate_missing 0 "CC" "zz" stW (by decide)
      (fun u ms h => Option.noConfusion (h : (none : Option RVal) = some (RVal.rset ms)))
      (fun ch its h => Option.noConfusion (h : (none : Option RVal) = some (RVal.rlist its)))).1,
    (c8_invalidate_missing 0 "CC" "zz" stW (by decide)
      (fun u ms h => Option.noConfusion (h : (none : Option RVal) = some (RVal.rset ms)))
      (fun ch its h => Option.noConfusion (h : (none : Option RVal) = some (RVal.rlist its)))).2.1⟩

/-- C2 counterexample: with `limit = Some(0)`, the scan still returns one
matching record — the length check runs only after the push — where the
claim ("stopping as soon as the result count reaches the request limit")
demands an empty result. -/
theorem c2_counterexample :
    (RedisCache.search_cached (honestConn 0) "CC" reqLim0 0 stW).1 =
      Except.ok [memA] ∧
    reqLim0.limit = some 0 := ⟨rfl, rfl⟩

/-- C2 amended: on a query-hash miss over a well-formed store,
`search_cached` returns exactly the filter-passing memories in scan order,
truncated at `max 1 limit` (default limit 20) — one more than a zero limit,
because the limit check runs only after a push; for limits ≥ 1 this is
exactly the first `limit` matches. The three filters are category equality,
tags match-any, and the instance allow-list. -/
theorem c2_scan_filter_take (t : Nat) (p : String) (req : SearchRequest) (s : RedisState)
    (hmiss : liveLookup t s (RKey.qcache req) = none)
    (hwf : ∀ i ∈ scanThoughtIds t s.kv p, wfAt t s p i = true) :
    (RedisCache.search_cached (honestConn t) p req t s).1 =
      Except.ok ((scanMatches t s p req).take (max 1 (req.limit.getD 20))) := by
  have hkv : (honestConn t).kvGet (RKey.qcache req) s = (Except.ok none, s) := by
    simp [honestConn, hmiss]
  have hstep : RedisCache.search_cached (honestConn t) p req t s =
      RedisCache.searchScan (honestConn t) p req t s := by
    unfold RedisCache.search_cached
    rw [hkv]
  rw [hstep]
  simp only [RedisCache.searchScan]
  rw [tryThen_ok_proj _ _ (scanThoughtIds t s.kv p) (by rfl)]
  have hspec2 : (RedisCache.scanLoop (honestConn t) p req t (scanThoughtIds t s.kv p) []
      ((honestConn t).scan p s).2).1 =
      Except.ok ((scanMatches t s p req).take (max 1 (req.limit.getD 20))) := by
    have hspec := scanLoop_spec t p req (scanThoughtIds t s.kv p) []
      { s with scans := s.scans + 1 }
      (lt_of_lt_of_le Nat.zero_lt_one (le_max_left 1 (req.limit.getD 20))) hwf
    have hm : matchesOf t { s with scans := s.scans + 1 } p req (scanThoughtIds t s.kv p) =
        scanMatches t s p req := rfl
    rw [hm] at hspec
    simpa using hspec
  rw [tryThen_ok_proj _ _ _ hspec2]
  cases hE : ((scanMatches t s p req).take (max 1 (req.limit.getD 20))).isEmpty <;>
    simp [hE]

/-- Witness for C2's amended statement on a concrete one-record store. -/
theorem c2_scan_filter_take_witness :
    (RedisCache.search_cached (honestConn 5) "CC" reqW 5 stW).1 =
      Except.ok ((scanMatches 5 stW "CC" reqW).take (max 1 (reqW.limit.getD 20))) :=
  c2_scan_filter_take 5 "CC" reqW stW (by decide) (by decide)

/-- C6: two `search_cached` calls with the same request, where the first
missed the query-hash cache, scanned, and produced a non-empty result, and
the second happens within the 1-hour TTL the first call started, return the
same result sequence and leave the state untouched — in particular the scan
counter does not move, so no second full key scan happens. -/
theorem c6_cached_requery (t1 t2 : Nat) (p : String) (req : SearchRequest)
    (s : RedisState) (r1 : List Memory)
    (hmiss : liveLookup t1 s (RKey.qcache req) = none)
    (h1 : (RedisCache.search_cached (honestConn t1) p req t1 s).1 = Except.ok r1)
    (hne : r1 ≠ [])
    (ht : t1 ≤ t2) (ht2 : t2 < t1 + 3600) :
    RedisCache.search_cached (honestConn t2) p req t2
        (RedisCache.search_cached (honestConn t1) p req t1 s).2 =
      (Except.ok r1, (RedisCache.search_cached (honestConn t1) p req t1 s).2) := by
  have hkv : (honestConn t1).kvGet (RKey.qcache req) s = (Except.ok none, s) := by
    simp [honestConn, hmiss]
  have hstep : RedisCache.search_cached (honestConn t1) p req t1 s =
      RedisCache.searchScan (honestConn t1) p req t1 s := by
    unfold RedisCache.search_cached
    rw [hkv]
  rw [hstep] at h1 ⊢
  simp only [RedisCache.searchScan] at h1 ⊢
  rw [tryThen_ok_proj _ _ (scanThoughtIds t1 s.kv p) (by rfl)] at h1 ⊢
  cases hl1 : (RedisCache.scanLoop (honestConn t1) p req t1 (scanThoughtIds t1 s.kv p) []
      ((honestConn t1).scan p s).2).1 with
  | error e =>
    rw [tryThen_error_proj _ _ e hl1] at h1
    simp at h1
  | ok results =>
    rw [tryThen_ok_proj _ _ results hl1] at h1 ⊢
    cases hE : results.isEmpty with
    | true =>
      simp only [hE, if_true] at h1
      simp at h1
      subst h1
      simp [List.isEmpty_iff] at hE
      exact absurd hE hne
    | false =>
      simp [hE] at h1 ⊢
      subst h1
      have hlook : liveLookup t2
          ((honestConn t1).kvSetEx (RKey.qcache req) (Val.memListV results) 3600
            (RedisCache.scanLoop (honestConn t1) p req t1 (scanThoughtIds t1 s.kv p) []
              ((honestConn t1).scan p s).2).2).2 (RKey.qcache req) =
          some (RVal.str (Val.memListV results) (some (t1 + 3600))) := by
        simp [honestConn, liveLookup, kvLookup_put_self, liveExp, ht2]
      have hkv2 : (honestConn t2).kvGet (RKey.qcache req)
          ((honestConn t1).kvSetEx (RKey.qcache req) (Val.memListV results) 3600
            (RedisCache.scanLoop (honestConn t1) p req t1 (scanThoughtIds t1 s.kv p) []
              ((honestConn t1).scan p s).2).2).2 =
          (Except.ok (some (Val.memListV results)),
           ((honestConn t1).kvSetEx (RKey.qcache req) (Val.memListV results) 3600
            (RedisCache.scanLoop (honestConn t1) p req t1 (scanThoughtIds t1 s.kv p) []
              ((honestConn t1).scan p s).2).2).2) :=
        kvGet_honest_of_str t2 _ _ _ _ hlook
      unfold RedisCache.search_cached
      rw [hkv2]
      rfl

/-- Witness for C6 on a concrete one-record store: the first call at time 5
scans and caches, the second at time 100 replays the cached list. -/
theorem c6_cached_requery_witness :
    RedisCache.search_cached (honestConn 100) "CC" reqW 100
        (RedisCache.search_cached (honestConn 5) "CC" reqW 5 stW).2 =
      (Except.ok [memA], (RedisCache.search_cached (honestConn 5) "CC" reqW 5 stW).2) :=
  c6_cached_requery 5 100 "CC" reqW stW [memA] (by decide) (by rfl)
    (by simp) (by decide) (by decide)

end UnifiedRag
